import Mathlib

/-!
# MicroJS (`src/miniframwork.js`): a shallow embedding

The class `MicroJS` bundles a state store (a `Proxy` over a plain object), a component
registry (`Map`), an element builder, and a router.  This file embeds those methods as
pure functions over an explicit description of the page (document tree, history) and
proves properties of them.

Conventions of the embedding.

* A DOM node is a tree value (`Node`); a handle to a node that lives in the page is a path
  into the tree it belongs to.  Nodes returned by render functions and nodes passed as
  children are freshly built, unshared nodes.
* Tree edits, attribute access, listener lists and the history list are defined here.
  Operations of the host that interpret a language of their own (CSS selectors, JSON,
  string conversion of objects, property access through a caller-supplied prototype) are
  fields of `Platform`.
* Code that can throw returns a `Run`: the state reached together with either the returned
  value or the exception that escaped.  Effects performed before a throw are kept.
* Render functions are functions of `(props, state)` that return a node or throw; they do
  not write the state and do not touch the page.
* Tag and attribute names are taken to be valid names (no `InvalidCharacterError`), and
  case mapping is the ASCII one.
-/

namespace MiniFramework

/-! ## Exceptions, nodes, values -/

/-- Exceptions that can escape a method. -/
inductive Exn where
  | typeError
  | syntaxError
  | hierarchyRequestError
  | thrown (payload : String)
  deriving DecidableEq, Repr

/-- Identity of a function object: one created by the caller, or one of the host. -/
inductive FnRef where
  | user (id : Nat)
  | builtin (name : String)
  deriving DecidableEq, Repr

/-- A DOM node: a text node, or an element with its attribute list (name, value), its
event listener list (event type, callback) and its children. -/
inductive Node where
  | text (data : String)
  | element (tag : String) (attrs : List (String × String))
      (listeners : List (String × FnRef)) (children : List Node)
  deriving Repr

/-- JavaScript values, as far as the framework inspects them. -/
inductive Value where
  | undefined
  | null
  | bool (b : Bool)
  | num (n : Int)
  | str (s : String)
  | func (f : FnRef)
  | obj (props : List (String × Value))
  | arr (items : List Value)
  | node (n : Node)
  | intrinsic (name : String)

/-- The state reached by a piece of imperative code and what it returned or threw. -/
structure Run (σ α : Type) where
  state : σ
  result : Except Exn α

/-- Models `Array.prototype.forEach` / `Map.prototype.forEach` / `NodeList.prototype.forEach` with
a callback that may throw: the first exception stops the iteration and escapes. -/
def forEach {σ α : Type} (body : σ → α → Run σ Unit) : List α → σ → Run σ Unit
  | [], s => ⟨s, .ok ()⟩
  | x :: xs, s =>
    match body s x with
    | ⟨s1, .ok _⟩ => forEach body xs s1
    | ⟨s1, .error e⟩ => ⟨s1, .error e⟩

/-! ## `Map` and own properties: insertion-ordered association lists -/

/-- Models `Map.prototype.get`. -/
def mapGet {β : Type} : List (String × β) → String → Option β
  | [], _ => none
  | (k1, v) :: rest, k => if k1 = k then some v else mapGet rest k

/-- Models `Map.prototype.has`. -/
def mapHas {β : Type} (m : List (String × β)) (k : String) : Bool :=
  (mapGet m k).isSome

/-- Models `Map.prototype.set`: an existing key keeps its position and gets the new value, a new
key is appended. -/
def mapSet {β : Type} : List (String × β) → String → β → List (String × β)
  | [], k, v => [(k, v)]
  | (k1, v1) :: rest, k, v => if k1 = k then (k, v) :: rest else (k1, v1) :: mapSet rest k v

/-! ## Strings -/

/-- Models `String.prototype.toLowerCase` and the ASCII lowercasing of the DOM (ASCII mapping). -/
def toLowerCase (s : String) : String := ⟨s.data.map Char.toLower⟩

/-- The prototype of the Proxy target. -/
inductive Proto where
  | objectPrototype
  | null
  | custom (o : Value)

/-- The Proxy target: own properties in creation order, and the prototype. -/
structure StateObj where
  own : List (String × Value)
  proto : Proto

/-- Models `typeof v === 'object' || typeof v === 'function'`, `null` excluded. -/
def Value.isObject : Value → Bool
  | .func _ => true
  | .obj _ => true
  | .arr _ => true
  | .node _ => true
  | .intrinsic _ => true
  | _ => false

/-- Names of the data properties of `Object.prototype` (all of them methods). -/
def objectPrototypeMethods : List String :=
  ["constructor", "__defineGetter__", "__defineSetter__", "hasOwnProperty",
   "__lookupGetter__", "__lookupSetter__", "isPrototypeOf", "propertyIsEnumerable",
   "toString", "valueOf", "toLocaleString"]

/-- Every property name found on `Object.prototype`: its methods and the accessor
`__proto__`. -/
def objectPrototypeNames : List String := "__proto__" :: objectPrototypeMethods

/-- Host operations the framework forwards to. -/
structure Platform where
  /-- Models `document.querySelector(sel)`: the path of the first match, `none` for `null`. -/
  querySelector : String → Node → Except Exn (Option (List Nat))
  /-- Models `document.querySelectorAll(sel)`: the paths of the matches, in document order. -/
  querySelectorAll : String → Node → Except Exn (List (List Nat))
  /-- Models `JSON.parse`. -/
  jsonParse : String → Except Exn Value
  /-- String conversion of a value that is not a string. -/
  toDOMString : Value → String
  /-- Property read that reaches a caller-supplied prototype object. -/
  inheritedGet : Value → String → Value
  /-- Assignment of a key that is not an own property, resolved by a caller-supplied
  prototype object (setters, read-only properties). -/
  inheritedSet : Value → String → Value → StateObj → Except Exn StateObj

/-- Models `target[key]` on the Proxy target (the Proxy has no `get` trap). -/
def StateObj.get (P : Platform) (s : StateObj) (key : String) : Value :=
  match mapGet s.own key with
  | some v => v
  | none =>
    match s.proto with
    | .objectPrototype =>
      if key = "__proto__" then .intrinsic "Object.prototype"
      else if key = "constructor" then .func (.builtin "Object")
      else if key ∈ objectPrototypeMethods then .func (.builtin ("Object.prototype." ++ key))
      else .undefined
    | .null => .undefined
    | .custom o => P.inheritedGet o key

/-- Models `target[property] = value` in strict mode: an own property is updated; otherwise the
prototype chain decides.  The methods of `Object.prototype` are writable data properties,
so the assignment creates an own property; `__proto__` is an accessor whose setter replaces
the prototype when given an object or `null` and ignores every other value. -/
def StateObj.set (P : Platform) (s : StateObj) (key : String) (value : Value) :
    Except Exn StateObj :=
  if mapHas s.own key then .ok { s with own := mapSet s.own key value }
  else
    match s.proto with
    | .objectPrototype =>
      if key = "__proto__" then
        match value with
        | .null => .ok { s with proto := .null }
        | v => if v.isObject then .ok { s with proto := .custom v } else .ok s
      else .ok { s with own := mapSet s.own key value }
    | .null => .ok { s with own := mapSet s.own key value }
    | .custom o => P.inheritedSet o key value s

/-! ## DOM primitives -/

/-- A handle to a node of a tree: the child indices from the root. -/
abbrev Path := List Nat

/-- The node at a path. -/
def Node.get : Node → Path → Option Node
  | n, [] => some n
  | .text _, _ :: _ => none
  | .element _ _ _ cs, i :: p => (cs.get? i).bind (fun c => Node.get c p)

/-- Replace the `i`-th entry of a list. -/
def modifyAt {α : Type} (f : α → α) : Nat → List α → List α
  | _, [] => []
  | 0, x :: xs => f x :: xs
  | i + 1, x :: xs => x :: modifyAt f i xs

/-- The tree with the subtree at a path replaced by a node (one node for one node). -/
def Node.replaceAt : Node → Path → Node → Node
  | _, [], new => new
  | .text d, _ :: _, _ => .text d
  | .element t a l cs, i :: p, new => .element t a l (modifyAt (fun c => Node.replaceAt c p new) i cs)

/-- Models `node instanceof Text`. -/
def Node.isText : Node → Bool
  | .text _ => true
  | .element _ _ _ _ => false

/-- Models `element.childNodes`. -/
def Node.children : Node → List Node
  | .text _ => []
  | .element _ _ _ cs => cs

/-- The attribute list of an element. -/
def Node.attrs : Node → List (String × String)
  | .text _ => []
  | .element _ a _ _ => a

/-- The event listener list of an element. -/
def Node.listeners : Node → List (String × FnRef)
  | .text _ => []
  | .element _ _ l _ => l

/-- Models `element.getAttribute(name)` in an HTML document (`none` for `null`). -/
def Node.getAttribute (n : Node) (name : String) : Option String :=
  mapGet n.attrs (toLowerCase name)

mutual
/-- Models `node.textContent`: the concatenated data of the text nodes below, in tree order. -/
def Node.textContent : Node → String
  | .text d => d
  | .element _ _ _ cs => textContentList cs
/-- Concatenated text content of a list of siblings. -/
def textContentList : List Node → String
  | [] => ""
  | c :: cs => Node.textContent c ++ textContentList cs
end

/-- Whether an element carries `data-component="name"`. -/
def Node.isMarker (name : String) (n : Node) : Bool :=
  match n with
  | .text _ => false
  | .element _ a _ _ => mapGet a "data-component" = some name

mutual
/-- The elements of a tree with `data-component="name"`, each with its path, in document
order (pre-order). -/
def Node.markers (name : String) : Node → List (Path × Node)
  | .text _ => []
  | .element t a l cs =>
    (if Node.isMarker name (.element t a l cs) then [([], .element t a l cs)] else [])
      ++ markersFrom name 0 cs
/-- Markers below the siblings `cs`, the first of which has index `i`. -/
def markersFrom (name : String) (i : Nat) : List Node → List (Path × Node)
  | [] => []
  | c :: cs =>
    ((Node.markers name c).map fun h => (i :: h.1, h.2)) ++ markersFrom name (i + 1) cs
end

/-! ## The class `MicroJS` -/

/-- A render function: `(props, state) => node`, which may throw. -/
abbrev RenderFn := Value → StateObj → Except Exn Node

/-- A node handle held by the caller: a node of the document, or a node of one of the
trees that are not attached to the document. -/
inductive NodeRef where
  | inDocument (path : Path)
  | detached (index : Nat) (path : Path)

/-- The `container` argument of `render`: a falsy value other than the empty string
(`undefined`, `null`), a selector string, or a node. -/
inductive Container where
  | absent
  | selector (s : String)
  | node (ref : NodeRef)

/-- An instance of `MicroJS` (the fields `components`, `state`, `routes`, `currentRoute`)
together with the page it runs in: the document tree, the trees not attached to it, and
the session history entries (the last one is the current entry). -/
structure MicroJS where
  components : List (String × RenderFn)
  state : StateObj
  routes : List (String × String)
  currentRoute : Option String
  document : Node
  detached : List Node
  history : List String

/-- Models `new MicroJS()` on a page. -/
def MicroJS.new (document : Node) (detached : List Node) (history : List String) : MicroJS :=
  { components := [], state := { own := [], proto := .objectPrototype }, routes := [],
    currentRoute := none, document := document, detached := detached, history := history }

/-- The node behind a handle. -/
def MicroJS.nodeAt (self : MicroJS) : NodeRef → Option Node
  | .inDocument p => self.document.get p
  | .detached i p => (self.detached.get? i).bind (fun t => t.get p)

/-- The page with the node behind a handle replaced. -/
def MicroJS.putAt (self : MicroJS) (ref : NodeRef) (n : Node) : MicroJS :=
  match ref with
  | .inDocument p => { self with document := self.document.replaceAt p n }
  | .detached i p => { self with detached := modifyAt (fun t => t.replaceAt p n) i self.detached }

/-- One `querySelectorAll(...).forEach` in progress: the document, and the handles already
replaced (every handle below one of them has left the document with it). -/
structure Pass where
  document : Node
  replaced : List Path

/-- The selector built by the template literal in `_updateComponents`. -/
def componentSelector (name : String) : String := "[data-component=\"" ++ name ++ "\"]"

/-- Models `element.getAttribute('data-props') || '{}'`. -/
def propsBlob (element : Node) : String :=
  match element.getAttribute "data-props" with
  | some s => if s = "" then "\x7b\x7d" else s
  | none => "\x7b\x7d"

/-- Models `element.replaceWith(newElement)` for a handle `p` obtained from the current
`querySelectorAll`.  An element below an already replaced handle is no longer in the
document: the call edits the removed subtree only.  The child of the document node cannot
become a text node. -/
def replaceWith (s : Pass) (p : Path) (newElement : Node) : Run Pass Unit :=
  if s.replaced.any (fun q => q.isPrefixOf p) then ⟨s, .ok ()⟩
  else if p = [] ∧ newElement.isText = true then ⟨s, .error .hierarchyRequestError⟩
  else ⟨{ document := s.document.replaceAt p newElement, replaced := p :: s.replaced }, .ok ()⟩

/-- The two lines `const props = JSON.parse(...)` and `const newElement = renderFunc(props,
this.state)` for one element. -/
def renderAt (P : Platform) (renderFunc : RenderFn) (state : StateObj) (element : Node) :
    Except Exn Node :=
  match P.jsonParse (propsBlob element) with
  | .error e => .error e
  | .ok props => renderFunc props state

/-- The body of `elements.forEach(element => ...)` in `_updateComponents`. -/
def rerenderElement (P : Platform) (renderFunc : RenderFn) (state : StateObj)
    (s : Pass) (element : Path × Node) : Run Pass Unit :=
  match renderAt P renderFunc state element.2 with
  | .error e => ⟨s, .error e⟩
  | .ok newElement => replaceWith s element.1 newElement

/-- The body of `this.components.forEach((renderFunc, name) => ...)`. -/
def MicroJS.updateComponent (P : Platform) (self : MicroJS) (entry : String × RenderFn) :
    Run MicroJS Unit :=
  match P.querySelectorAll (componentSelector entry.1) self.document with
  | .error e => ⟨self, .error e⟩
  | .ok paths =>
    let elements := paths.filterMap (fun p => (self.document.get p).map (fun n => (p, n)))
    let r := forEach (rerenderElement P entry.2 self.state) elements ⟨self.document, []⟩
    ⟨{ self with document := r.state.document }, r.result⟩

/-- Models `_updateComponents(changedStateKey)`. -/
def MicroJS._updateComponents (P : Platform) (self : MicroJS) (_changedStateKey : String) :
    Run MicroJS Unit :=
  forEach (MicroJS.updateComponent P) self.components self

/-- Models `setState(key, value)`: the assignment goes through the `set` trap of the Proxy, which
stores the value and then calls `_updateComponents`. -/
def MicroJS.setState (P : Platform) (self : MicroJS) (key : String) (value : Value) :
    Run MicroJS Unit :=
  match self.state.set P key value with
  | .error e => ⟨self, .error e⟩
  | .ok st => MicroJS._updateComponents P { self with state := st } key

/-- Models `getState(key)`. -/
def MicroJS.getState (P : Platform) (self : MicroJS) (key : String) : Value :=
  self.state.get P key

/-- Models `component(name, renderFunction)`. -/
def MicroJS.component (self : MicroJS) (name : String) (renderFunction : RenderFn) : MicroJS :=
  { self with components := mapSet self.components name renderFunction }

/-- Models `container.innerHTML = ''; container.appendChild(element)`.  A text node accepts the
assignment as a plain property and rejects the child. -/
def mountInto (container element : Node) : Except Exn Node :=
  match container with
  | .text _ => .error .hierarchyRequestError
  | .element t a l _ => .ok (.element t a l [element])

/-- The part of `render` that runs once the container node is at hand. -/
def MicroJS.mount (self : MicroJS) (ref : NodeRef) (element : Node) :
    Run MicroJS (Option Node) :=
  match self.nodeAt ref with
  | none => ⟨self, .error .typeError⟩
  | some c =>
    match mountInto c element with
    | .error e => ⟨self, .error e⟩
    | .ok c1 => ⟨self.putAt ref c1, .ok (some element)⟩

/-- The default parameter `props = {}`: it replaces `undefined` only. -/
def defaultProps : Value → Value
  | .undefined => .obj []
  | p => p

/-- Models `render(componentName, container, props = {})`; `none` is `null`. -/
def MicroJS.render (P : Platform) (self : MicroJS) (componentName : String)
    (container : Container) (props : Value) : Run MicroJS (Option Node) :=
  match mapGet self.components componentName with
  | none => ⟨self, .ok none⟩
  | some renderFunc =>
    match renderFunc (defaultProps props) self.state with
    | .error e => ⟨self, .error e⟩
    | .ok element =>
      match container with
      | .absent => ⟨self, .ok (some element)⟩
      | .selector s =>
        if s = "" then ⟨self, .ok (some element)⟩
        else
          match P.querySelector s self.document with
          | .error e => ⟨self, .error e⟩
          | .ok none => ⟨self, .error .typeError⟩
          | .ok (some p) => self.mount (.inDocument p) element
      | .node ref => self.mount ref element

/-- Models `route(path, component)`. -/
def MicroJS.route (self : MicroJS) (path : String) (component : String) : MicroJS :=
  { self with routes := mapSet self.routes path component }

/-- Models `_renderRoute()`. -/
def MicroJS._renderRoute (P : Platform) (self : MicroJS) : Run MicroJS Unit :=
  match self.currentRoute.bind (mapGet self.routes) with
  | none => ⟨self, .ok ()⟩
  | some component =>
    if component = "" then ⟨self, .ok ()⟩
    else
      let r := self.render P component (.selector "#app") .undefined
      ⟨r.state, r.result.map (fun _ => ())⟩

/-- Models `navigate(path)`; `pushState` appends the new current entry. -/
def MicroJS.navigate (P : Platform) (self : MicroJS) (path : String) : Run MicroJS Unit :=
  if mapHas self.routes path then
    MicroJS._renderRoute P
      { self with currentRoute := some path, history := self.history ++ [path] }
  else ⟨self, .ok ()⟩

/-! ## Vocabulary for the statements -/

/-- Whether `if (container)` takes the branch: a node, or a non-empty string. -/
def Container.supplied : Container → Bool
  | .absent => false
  | .selector s => s ≠ ""
  | .node _ => true

/-- The element a supplied container designates, with its handle: the element behind a node
handle, or the element of the document that the host resolves a non-empty selector to. -/
def MicroJS.containerElement (P : Platform) (self : MicroJS) : Container → Option (NodeRef × Node)
  | .absent => none
  | .selector s =>
    if s = "" then none
    else
      match P.querySelector s self.document with
      | .ok (some p) =>
        match self.document.get p with
        | some (.element t a l cs) => some (.inDocument p, .element t a l cs)
        | _ => none
      | _ => none
  | .node ref =>
    match self.nodeAt ref with
    | some (.element t a l cs) => some (ref, .element t a l cs)
    | _ => none

/-- The host resolves the selector built for a component name to the elements that carry
`data-component="name"`, in document order. -/
def Platform.conforms (P : Platform) (name : String) : Prop :=
  ∀ d : Node, P.querySelectorAll (componentSelector name) d =
    .ok ((Node.markers name d).map Prod.fst)

/-- One iteration of `elements.forEach` when nothing throws: the element is replaced by its
rendering unless it has left the document. -/
def pureStep (P : Platform) (renderFunc : RenderFn) (state : StateObj) (s : Pass)
    (element : Path × Node) : Pass :=
  match renderAt P renderFunc state element.2 with
  | .ok newElement =>
    if s.replaced.any (fun q => q.isPrefixOf element.1) then s
    else { document := s.document.replaceAt element.1 newElement,
           replaced := element.1 :: s.replaced }
  | .error _ => s

mutual
/-- The tree in which every outermost element marked `data-component="name"` is replaced by
the node its render function returns for the props decoded from its `data-props` and the
given state.  (An element whose rendering throws is kept and searched further; the
statements below are about passes in which nothing throws.) -/
def Node.substituted (P : Platform) (name : String) (renderFunc : RenderFn)
    (state : StateObj) : Node → Node
  | .text d => .text d
  | .element t a l cs =>
    if Node.isMarker name (.element t a l cs) then
      match renderAt P renderFunc state (.element t a l cs) with
      | .ok newElement => newElement
      | .error _ => .element t a l (substitutedList P name renderFunc state cs)
    else .element t a l (substitutedList P name renderFunc state cs)
/-- The siblings `cs` with `Node.substituted` applied to each. -/
def substitutedList (P : Platform) (name : String) (renderFunc : RenderFn)
    (state : StateObj) : List Node → List Node
  | [] => []
  | c :: cs =>
    Node.substituted P name renderFunc state c :: substitutedList P name renderFunc state cs
end

/-- Every element of the tree marked `data-component="name"`, nested ones included, gets
a node from `JSON.parse` followed by the render function, and the root of the tree, if
it is marked, does not get a text node. -/
def rendersAll (P : Platform) (name : String) (renderFunc : RenderFn)
    (state : StateObj) (d : Node) : Prop :=
  ∀ m ∈ Node.markers name d,
    ∃ el, renderAt P renderFunc state m.2 = .ok el ∧ (m.1 = [] → el.isText = false)

/-- The document after a pass over the registry in which nothing throws: the components
are taken in registration order, each one acting on the document the previous ones left. -/
def passDocument (P : Platform) (state : StateObj) (components : List (String × RenderFn))
    (d : Node) : Node :=
  components.foldl (fun d c => Node.substituted P c.1 c.2 state d) d

/-- Nothing throws in a pass: at the turn of each component, the host resolves its selector
and every marked element of the document of that moment renders to a node. -/
def passRenders (P : Platform) (state : StateObj) :
    List (String × RenderFn) → Node → Prop
  | [], _ => True
  | c :: cs, d =>
    P.conforms c.1 ∧ rendersAll P c.1 c.2 state d ∧
      passRenders P state cs (Node.substituted P c.1 c.2 state d)

/-- The instance after `component(name, fn)` for each entry of a list, in order. -/
def MicroJS.registerAll (self : MicroJS) (regs : List (String × RenderFn)) : MicroJS :=
  regs.foldl (fun a r => a.component r.1 r.2) self

/-- A page: `<html><body><div id="app">old</div></body></html>`. -/
def samplePage : Node :=
  .element "html" [] [] [.element "body" [] [] [.element "div" [("id", "app")] [] [.text "old"]]]

/-- A render function that builds `<p>hello</p>`. -/
def hello : RenderFn := fun _ _ => .ok (.element "p" [] [] [.text "hello"])

/-- A render function that builds `<p>bye</p>`. -/
def bye : RenderFn := fun _ _ => .ok (.element "p" [] [] [.text "bye"])

/-- The text of the state key `count` when it holds a string. -/
def countText (state : StateObj) : String :=
  match mapGet state.own "count" with
  | some (.str s) => s
  | _ => ""

/-- A render function that shows the state key `count` in a `<p>` that it marks itself with
`data-component="counter"`. -/
def markedCounter : RenderFn := fun _ state =>
  .ok (.element "p" [("data-component", "counter")] [] [.text (countText state)])

/-- A page with one element marked for `counter`:
`<html><body><p data-component="counter">0</p></body></html>`. -/
def counterPage : Node :=
  .element "html" [] []
    [.element "body" [] [] [.element "p" [("data-component", "counter")] [] [.text "0"]]]

/-- A render function that builds `<section data-component="outer">A</section>`. -/
def outerView : RenderFn := fun _ _ =>
  .ok (.element "section" [("data-component", "outer")] [] [.text "A"])

/-- A render function that builds `<span data-component="inner">B</span>`. -/
def innerView : RenderFn := fun _ _ =>
  .ok (.element "span" [("data-component", "inner")] [] [.text "B"])

/-- A render function that always throws. -/
def failing : RenderFn := fun _ _ => .error (.thrown "boom")

/-- A page with an element marked for `inner` inside an element marked for `outer`:
`<html><section data-component="outer"><span data-component="inner">old</span></section></html>`. -/
def nestedPage : Node :=
  .element "html" [] []
    [.element "section" [("data-component", "outer")] []
      [.element "span" [("data-component", "inner")] [] [.text "old"]]]

/-- A render function that builds a list item marked for `item`, and throws when its props
are not the empty object. -/
def picky : RenderFn := fun props _ =>
  match props with
  | .obj [] => .ok (.element "li" [("data-component", "item")] [] [.text "new"])
  | _ => .error (.thrown "bad props")

/-- A page with three elements marked for `item`, the second of which carries the props
`{"bad":true}`. -/
def listPage : Node :=
  .element "html" [] []
    [.element "ul" [] []
      [.element "li" [("data-component", "item")] [] [.text "a"],
       .element "li" [("data-component", "item"), ("data-props", "\x7b\"bad\":true\x7d")] []
         [.text "b"],
       .element "li" [("data-component", "item")] [] [.text "c"]]]

/-! ## A sample host -/

mutual
/-- The path of the first element, in document order, whose `id` attribute is `id`. -/
def Node.findId (id : String) : Node → Option Path
  | .text _ => none
  | .element _ a _ cs =>
    if mapGet a "id" = some id then some [] else findIdFrom id 0 cs
/-- First element with the given `id` below the siblings `cs`, the first of which has
index `i`. -/
def findIdFrom (id : String) (i : Nat) : List Node → Option Path
  | [] => none
  | c :: cs =>
    match Node.findId id c with
    | some p => some (i :: p)
    | none => findIdFrom id (i + 1) cs
end

/-- The value between the quotes of a selector of the form `[data-component="..."]`. -/
def attrSelectorName (sel : String) : Option String :=
  let pre := "[data-component=\"".data
  if pre.isPrefixOf sel.data ∧ sel.data.length ≥ pre.length + 2 then
    some ⟨((sel.data.drop pre.length).reverse.drop 2).reverse⟩
  else none

/-- A host that resolves `#id` selectors and `[data-component="name"]` selectors, parses the
JSON texts `{}` and `{"bad":true}`, and treats a caller-supplied prototype as having no
properties of its own.  Used to instantiate the statements below on concrete pages. -/
def sampleHost : Platform :=
  { querySelector := fun sel d =>
      match sel.data with
      | '#' :: rest => .ok (Node.findId ⟨rest⟩ d)
      | _ => .error .syntaxError
    querySelectorAll := fun sel d =>
      match attrSelectorName sel with
      | some name => .ok ((Node.markers name d).map Prod.fst)
      | none => .error .syntaxError
    jsonParse := fun s =>
      if s = "\x7b\x7d" then .ok (.obj [])
      else if s = "\x7b\"bad\":true\x7d" then .ok (.obj [("bad", .bool true)])
      else .error .syntaxError
    toDOMString := fun _ => "[object]"
    inheritedGet := fun _ _ => .undefined
    inheritedSet := fun _ key value s => .ok { s with own := mapSet s.own key value } }

/-! ## Sequences of method calls -/

/-- A call of one of the public methods that can change the instance or the page. -/
inductive Call where
  | setState (key : String) (value : Value)
  | component (name : String) (renderFunction : RenderFn)
  | route (path : String) (component : String)
  | render (componentName : String) (container : Container) (props : Value)
  | navigate (path : String)

/-- The instance and page after a call (an exception that escapes the call is caught by the
caller; effects performed before it are kept). -/
def MicroJS.call (P : Platform) (self : MicroJS) : Call → MicroJS
  | .setState key value => (self.setState P key value).state
  | .component name f => self.component name f
  | .route path c => self.route path c
  | .render name container props => (self.render P name container props).state
  | .navigate path => (self.navigate P path).state

/-- The instance and page after a sequence of calls. -/
def MicroJS.calls (P : Platform) (self : MicroJS) (cs : List Call) : MicroJS :=
  cs.foldl (MicroJS.call P) self

/-- Whether a call is `setState(key, _)`. -/
def Call.writes (key : String) : Call → Bool
  | .setState k _ => k = key
  | _ => false

/-- Everything but the document tree is the same in two instances. -/
def MicroJS.sameApart (a b : MicroJS) : Prop :=
  b.components = a.components ∧ b.state = a.state ∧ b.routes = a.routes ∧
    b.currentRoute = a.currentRoute ∧ b.detached = a.detached ∧ b.history = a.history

/-- The instance fields and the history are the same in two instances (the trees of the page
may differ). -/
def MicroJS.sameInstance (a b : MicroJS) : Prop :=
  b.components = a.components ∧ b.state = a.state ∧ b.routes = a.routes ∧
    b.currentRoute = a.currentRoute ∧ b.history = a.history

/-- The state of a pass over a subtree, seen from the element that holds the subtree as its
`i`-th child. -/
def liftPass (t : String) (a : List (String × String)) (l : List (String × FnRef))
    (cs0 : List Node) (i : Nat) (others : List Path) (s : Pass) : Pass :=
  { document := .element t a l (modifyAt (fun _ => s.document) i cs0),
    replaced := s.replaced.map (fun q => i :: q) ++ others }

/-! ## Basic lemmas -/

theorem mapGet_mapSet_self {β : Type} (m : List (String × β)) (k : String) (v : β) :
    mapGet (mapSet m k v) k = some v := by
  induction m with
  | nil => simp [mapSet, mapGet]
  | cons hd tl ih =>
    obtain ⟨k1, v1⟩ := hd
    by_cases h : k1 = k
    · simp [mapSet, mapGet, h]
    · simp [mapSet, mapGet, h, ih]

theorem mapGet_mapSet_ne {β : Type} (m : List (String × β)) (k k2 : String) (v : β)
    (hne : k ≠ k2) : mapGet (mapSet m k v) k2 = mapGet m k2 := by
  induction m with
  | nil => simp [mapSet, mapGet, hne]
  | cons hd tl ih =>
    obtain ⟨k1, v1⟩ := hd
    by_cases h : k1 = k
    · subst h
      simp [mapSet, mapGet, hne]
    · simp only [mapSet, h, if_false, mapGet, ih]

theorem forEach_preserves {σ α : Type} (body : σ → α → Run σ Unit) (I : σ → Prop)
    (h : ∀ s x, I s → I (body s x).state) :
    ∀ (xs : List α) (s : σ), I s → I (forEach body xs s).state := by
  intro xs
  induction xs with
  | nil => intro s hs; simpa [forEach] using hs
  | cons x xs ih =>
    intro s hs
    have hx := h s x hs
    rcases hb : body s x with ⟨s1, (e | u)⟩
    · rw [hb] at hx
      simpa [forEach, hb] using hx
    · rw [hb] at hx
      simpa [forEach, hb] using ih s1 hx

theorem forEach_append {σ α : Type} (body : σ → α → Run σ Unit) (xs ys : List α) (s : σ) :
    forEach body (xs ++ ys) s =
      match forEach body xs s with
      | ⟨s1, .ok _⟩ => forEach body ys s1
      | ⟨s1, .error e⟩ => ⟨s1, .error e⟩ := by
  induction xs generalizing s with
  | nil => simp [forEach]
  | cons x xs ih =>
    rcases hb : body s x with ⟨s1, (e | u)⟩
    · simp [forEach, hb]
    · simp [forEach, hb, ih]

theorem updateComponent_sameApart (P : Platform) (self : MicroJS) (entry : String × RenderFn) :
    self.sameApart (self.updateComponent P entry).state := by
  unfold MicroJS.updateComponent
  cases P.querySelectorAll (componentSelector entry.1) self.document <;>
    simp [MicroJS.sameApart]

theorem updateComponents_sameApart (P : Platform) (self : MicroJS) (key : String) :
    self.sameApart (self._updateComponents P key).state := by
  unfold MicroJS._updateComponents
  refine forEach_preserves (MicroJS.updateComponent P) (fun s => self.sameApart s) ?_ _ self ?_
  · intro s x hs
    have h2 := updateComponent_sameApart P s x
    simp only [MicroJS.sameApart] at hs h2 ⊢
    obtain ⟨a1, a2, a3, a4, a5, a6⟩ := hs
    obtain ⟨b1, b2, b3, b4, b5, b6⟩ := h2
    exact ⟨b1.trans a1, b2.trans a2, b3.trans a3, b4.trans a4, b5.trans a5, b6.trans a6⟩
  · simp [MicroJS.sameApart]

theorem setState_state (P : Platform) (self : MicroJS) (key : String) (value : Value)
    (st : StateObj) (h : self.state.set P key value = .ok st) :
    (self.setState P key value).state.state = st := by
  unfold MicroJS.setState
  rw [h]
  exact (updateComponents_sameApart P _ key).2.1

theorem setState_state_error (P : Platform) (self : MicroJS) (key : String) (value : Value)
    (e : Exn) (h : self.state.set P key value = .error e) :
    (self.setState P key value).state = self := by
  unfold MicroJS.setState
  rw [h]

theorem mount_state (self : MicroJS) (ref : NodeRef) (element : Node) :
    (self.mount ref element).state.state = self.state := by
  unfold MicroJS.mount
  split
  · rfl
  · split
    · rfl
    · cases ref <;> rfl

theorem render_state (P : Platform) (self : MicroJS) (name : String) (container : Container)
    (props : Value) : (self.render P name container props).state.state = self.state := by
  unfold MicroJS.render
  split
  · rfl
  · split
    · rfl
    · split
      · rfl
      · split
        · rfl
        · split
          · rfl
          · rfl
          · exact mount_state _ _ _
      · exact mount_state _ _ _

theorem renderRoute_state (P : Platform) (self : MicroJS) :
    (self._renderRoute P).state.state = self.state := by
  unfold MicroJS._renderRoute
  split
  · rfl
  · split
    · rfl
    · exact render_state P _ _ _ _

theorem navigate_state (P : Platform) (self : MicroJS) (path : String) :
    (self.navigate P path).state.state = self.state := by
  unfold MicroJS.navigate
  split
  · exact renderRoute_state P _
  · rfl

/-! ## The state store -/

theorem set_eq_of_objectPrototype (P : Platform) (s : StateObj) (key : String) (value : Value)
    (hp : s.proto = .objectPrototype) (hk : key ≠ "__proto__") :
    s.set P key value = .ok { s with own := mapSet s.own key value } := by
  unfold StateObj.set
  by_cases h : mapHas s.own key = true
  · simp [h]
  · simp [h, hp, hk]

theorem get_of_own (P : Platform) (s : StateObj) (key : String) (value : Value)
    (h : mapGet s.own key = some value) : s.get P key = value := by
  simp [StateObj.get, h]

theorem get_undefined (P : Platform) (s : StateObj) (key : String)
    (hp : s.proto = .objectPrototype) (hown : mapGet s.own key = none)
    (hk : key ∉ objectPrototypeNames) : s.get P key = .undefined := by
  have h1 : key ≠ "__proto__" := fun h => hk (by simp [objectPrototypeNames, h])
  have h2 : key ∉ objectPrototypeMethods := fun h => hk (by simp [objectPrototypeNames, h])
  have h3 : key ≠ "constructor" := fun h => h2 (by simp [objectPrototypeMethods, h])
  simp [StateObj.get, hown, hp, h1, h2, h3]

theorem call_state (P : Platform) (self : MicroJS) (c : Call)
    (hw : ∀ k v, c ≠ .setState k v) : (self.call P c).state = self.state := by
  cases c with
  | setState k v => exact absurd rfl (hw k v)
  | component name f => rfl
  | route path c => rfl
  | render name container props => exact render_state P self name container props
  | navigate path => exact navigate_state P self path

theorem call_keeps (P : Platform) (self : MicroJS) (c : Call) (key : String)
    (hproto : c.writes "__proto__" = false) (hkey : c.writes key = false)
    (hp : self.state.proto = .objectPrototype) (hown : mapGet self.state.own key = none) :
    (self.call P c).state.proto = .objectPrototype ∧
      mapGet (self.call P c).state.own key = none := by
  cases c with
  | setState k v =>
    have hk1 : k ≠ "__proto__" := by simpa [Call.writes] using hproto
    have hk2 : k ≠ key := by simpa [Call.writes] using hkey
    have hs := setState_state P self k v _ (set_eq_of_objectPrototype P self.state k v hp hk1)
    simp only [MicroJS.call, hs]
    exact ⟨hp, by rw [mapGet_mapSet_ne _ _ _ _ hk2]; exact hown⟩
  | component name f => exact ⟨hp, hown⟩
  | route path c => exact ⟨hp, hown⟩
  | render name container props =>
    simp only [MicroJS.call, render_state]
    exact ⟨hp, hown⟩
  | navigate path =>
    simp only [MicroJS.call, navigate_state]
    exact ⟨hp, hown⟩

theorem calls_keep (P : Platform) (cs : List Call) (key : String) :
    ∀ (self : MicroJS), (∀ c ∈ cs, Call.writes "__proto__" c = false) →
      (∀ c ∈ cs, Call.writes key c = false) →
      self.state.proto = .objectPrototype → mapGet self.state.own key = none →
      (self.calls P cs).state.proto = .objectPrototype ∧
        mapGet (self.calls P cs).state.own key = none := by
  induction cs with
  | nil => intro self _ _ hp hown; exact ⟨hp, hown⟩
  | cons c cs ih =>
    intro self h1 h2 hp hown
    have hc := call_keeps P self c key (h1 c (List.mem_cons_self _ _))
      (h2 c (List.mem_cons_self _ _)) hp hown
    exact ih (self.call P c) (fun d hd => h1 d (List.mem_cons_of_mem _ hd))
      (fun d hd => h2 d (List.mem_cons_of_mem _ hd)) hc.1 hc.2

theorem calls_proto (P : Platform) (cs : List Call) :
    ∀ (self : MicroJS), (∀ c ∈ cs, Call.writes "__proto__" c = false) →
      self.state.proto = .objectPrototype →
      (self.calls P cs).state.proto = .objectPrototype := by
  induction cs with
  | nil => intro self _ hp; exact hp
  | cons c cs ih =>
    intro self h1 hp
    refine ih (self.call P c) (fun d hd => h1 d (List.mem_cons_of_mem _ hd)) ?_
    cases c with
    | setState k v =>
      have hk1 : k ≠ "__proto__" := by
        simpa [Call.writes] using h1 _ (List.mem_cons_self _ _)
      have hs := setState_state P self k v _ (set_eq_of_objectPrototype P self.state k v hp hk1)
      simp only [MicroJS.call, hs]
      exact hp
    | component name f => exact hp
    | route path c => exact hp
    | render name container props => simp only [MicroJS.call, render_state]; exact hp
    | navigate path => simp only [MicroJS.call, navigate_state]; exact hp

/-- C1 (amended). On a store created by the constructor and used through any sequence of
method calls that never writes the key `__proto__`: for every key other than `__proto__`
and every value, `getState(key)` after `setState(key, value)` returns exactly that value
(whether or not propagation throws); and `getState` on a key that was never written and is
not a property name of `Object.prototype` returns `undefined`. -/
theorem setState_getState_roundtrip (P : Platform) (document : Node) (detached : List Node)
    (history : List String) (calls : List Call)
    (hproto : ∀ c ∈ calls, Call.writes "__proto__" c = false) :
    (∀ key value, key ≠ "__proto__" →
      (((MicroJS.new document detached history).calls P calls).setState P key value).state.getState
        P key = value) ∧
    (∀ key, key ∉ objectPrototypeNames → (∀ c ∈ calls, Call.writes key c = false) →
      ((MicroJS.new document detached history).calls P calls).getState P key = .undefined) := by
  constructor
  · intro key value hk
    have hp := calls_proto P calls (MicroJS.new document detached history) hproto rfl
    have hs := setState_state P _ key value _ (set_eq_of_objectPrototype P _ key value hp hk)
    unfold MicroJS.getState
    rw [hs]
    exact get_of_own P _ key value (mapGet_mapSet_self _ _ _)
  · intro key hk hw
    have h := calls_keep P calls key (MicroJS.new document detached history) hproto hw rfl rfl
    exact get_undefined P _ key h.1 h.2 hk

/-- Witness for C1: a store that has seen `setState("count", 1)`; the key `count` is
rewritten with `2`, the key `total` was never written. -/
theorem setState_getState_roundtrip_witness :
    (∀ c ∈ [Call.setState "count" (.num 1)], Call.writes "__proto__" c = false) ∧
    ((((MicroJS.new (.element "html" [] [] []) [] []).calls sampleHost
        [Call.setState "count" (.num 1)]).setState sampleHost "count" (.num 2)).state.getState
        sampleHost "count" = .num 2) ∧
    (((MicroJS.new (.element "html" [] [] []) [] []).calls sampleHost
        [Call.setState "count" (.num 1)]).getState sampleHost "total" = .undefined) :=
  ⟨by simp [Call.writes],
   (setState_getState_roundtrip sampleHost (.element "html" [] [] []) [] []
     [Call.setState "count" (.num 1)] (by simp [Call.writes])).1 "count" (.num 2) (by decide),
   (setState_getState_roundtrip sampleHost (.element "html" [] [] []) [] []
     [Call.setState "count" (.num 1)] (by simp [Call.writes])).2 "total" (by decide)
     (by simp [Call.writes])⟩

/-- C1 as stated fails: on a fresh store, `getState("__proto__")` after
`setState("__proto__", 5)` is `Object.prototype`, not `5`; and `getState("toString")`,
a key never written, is the inherited method, not `undefined`. -/
theorem getState_inherited_counterexample :
    (((MicroJS.new (.element "html" [] [] []) [] []).setState sampleHost "__proto__"
        (.num 5)).state.getState sampleHost "__proto__" = .intrinsic "Object.prototype") ∧
    ((MicroJS.new (.element "html" [] [] []) [] []).getState sampleHost "toString"
        = .func (.builtin "Object.prototype.toString")) ∧
    Value.intrinsic "Object.prototype" ≠ Value.num 5 ∧
    Value.func (.builtin "Object.prototype.toString") ≠ Value.undefined := by
  refine ⟨rfl, ?_, ?_, ?_⟩
  · simp [MicroJS.getState, MicroJS.new, StateObj.get, mapGet, objectPrototypeMethods]
  · intro h; cases h
  · intro h; cases h

/-! ## The router: unregistered paths -/

theorem mapGet_foldl_mapSet_none {β : Type} (regs : List (String × β)) (k : String)
    (hk : ∀ r ∈ regs, r.1 ≠ k) :
    ∀ (m : List (String × β)), mapGet m k = none →
      mapGet (regs.foldl (fun m r => mapSet m r.1 r.2) m) k = none := by
  induction regs with
  | nil => intro m hm; exact hm
  | cons r rs ih =>
    intro m hm
    refine ih (fun r2 h2 => hk r2 (List.mem_cons_of_mem _ h2)) _ ?_
    rw [mapGet_mapSet_ne _ _ _ _ (hk r (List.mem_cons_self _ _))]
    exact hm

/-- C7. For every route table built by calls `route(path_i, component_i)` and every path
that is none of the `path_i`, `navigate(path)` returns normally and leaves the instance and
the page (current route, history, route table, document, detached trees, registry, state)
exactly as they were. -/
theorem navigate_unregistered_noop (P : Platform) (self : MicroJS)
    (registrations : List (String × String)) (path : String)
    (hroutes : self.routes = registrations.foldl (fun m r => mapSet m r.1 r.2) [])
    (hpath : ∀ r ∈ registrations, r.1 ≠ path) :
    self.navigate P path = ⟨self, .ok ()⟩ := by
  have h : mapGet self.routes path = none := by
    rw [hroutes]
    exact mapGet_foldl_mapSet_none registrations path hpath [] rfl
  simp [MicroJS.navigate, mapHas, h]

/-- Witness for C7: the route table holds `/home` only and the caller navigates to
`/about`. -/
theorem navigate_unregistered_noop_witness :
    (((MicroJS.new (.element "html" [] [] []) [] ["/"]).route "/home" "Home").routes =
        [("/home", "Home")].foldl (fun m r => mapSet m r.1 r.2) []) ∧
    (∀ r ∈ [("/home", "Home")], r.1 ≠ "/about") ∧
    ((MicroJS.new (.element "html" [] [] []) [] ["/"]).route "/home" "Home").navigate
        sampleHost "/about" =
      ⟨(MicroJS.new (.element "html" [] [] []) [] ["/"]).route "/home" "Home", .ok ()⟩ :=
  ⟨rfl, by decide,
   navigate_unregistered_noop sampleHost
     ((MicroJS.new (.element "html" [] [] []) [] ["/"]).route "/home" "Home")
     [("/home", "Home")] "/about" rfl (by decide)⟩

/-! ## The component registry and `render` -/

theorem mapGet_foldl_mapSet_ne {β : Type} (regs : List (String × β)) (k : String)
    (hk : ∀ r ∈ regs, r.1 ≠ k) :
    ∀ (m : List (String × β)),
      mapGet (regs.foldl (fun m r => mapSet m r.1 r.2) m) k = mapGet m k := by
  induction regs with
  | nil => intro m; rfl
  | cons r rs ih =>
    intro m
    rw [List.foldl_cons, ih (fun r2 h2 => hk r2 (List.mem_cons_of_mem _ h2))]
    exact mapGet_mapSet_ne _ _ _ _ (hk r (List.mem_cons_self _ _))

theorem registerAll_components (regs : List (String × RenderFn)) :
    ∀ (self : MicroJS), (self.registerAll regs).components =
      regs.foldl (fun m r => mapSet m r.1 r.2) self.components := by
  induction regs with
  | nil => intro self; rfl
  | cons r rs ih =>
    intro self
    simp only [MicroJS.registerAll, List.foldl_cons] at ih ⊢
    rw [ih]
    rfl

theorem registerAll_last (self : MicroJS) (before after : List (String × RenderFn))
    (name : String) (f : RenderFn) (hafter : ∀ r ∈ after, r.1 ≠ name) :
    mapGet (self.registerAll (before ++ (name, f) :: after)).components name = some f := by
  rw [registerAll_components, List.foldl_append, List.foldl_cons,
    mapGet_foldl_mapSet_ne after name hafter]
  exact mapGet_mapSet_self _ _ _

theorem Node.get_nil (n : Node) : n.get [] = some n := by
  cases n <;> rfl

theorem Node.replaceAt_nil (d n : Node) : d.replaceAt [] n = n := by
  cases d <;> rfl

theorem Node.get_replaceAt (n : Node) : ∀ (p : Path) (d : Node), (d.get p).isSome →
    (d.replaceAt p n).get p = some n := by
  intro p
  induction p with
  | nil => intro d _; rw [Node.replaceAt_nil, Node.get_nil]
  | cons i p ih =>
    intro d hd
    cases d with
    | text s => simp [Node.get] at hd
    | element t a l cs =>
      simp only [Node.get, Node.replaceAt] at hd ⊢
      induction cs generalizing i with
      | nil => simp at hd
      | cons c cs ihc =>
        cases i with
        | zero =>
          simp only [List.get?_cons_zero, Option.some_bind, modifyAt] at hd ⊢
          exact ih c hd
        | succ j =>
          simp only [List.get?_cons_succ, modifyAt] at hd ⊢
          exact ihc j hd

theorem get?_modifyAt {α : Type} (f : α → α) : ∀ (i : Nat) (l : List α),
    (modifyAt f i l).get? i = (l.get? i).map f := by
  intro i l
  induction l generalizing i with
  | nil => simp [modifyAt]
  | cons x xs ih =>
    cases i with
    | zero => simp [modifyAt]
    | succ j => simpa [modifyAt] using ih j

theorem nodeAt_putAt (self : MicroJS) (ref : NodeRef) (n : Node)
    (h : (self.nodeAt ref).isSome) : (self.putAt ref n).nodeAt ref = some n := by
  cases ref with
  | inDocument p => exact Node.get_replaceAt n p self.document h
  | detached i p =>
    simp only [MicroJS.nodeAt, MicroJS.putAt] at h ⊢
    rw [get?_modifyAt]
    cases ht : self.detached.get? i with
    | none => rw [ht] at h; simp at h
    | some t =>
      rw [ht] at h
      simp only [Option.some_bind, Option.map_some'] at h ⊢
      exact Node.get_replaceAt n p t h

theorem render_unknown (P : Platform) (self : MicroJS) (name : String) (container : Container)
    (props : Value) (h : mapGet self.components name = none) :
    self.render P name container props = ⟨self, .ok none⟩ := by
  simp [MicroJS.render, h]

theorem render_unsupplied (P : Platform) (self : MicroJS) (name : String)
    (container : Container) (props : Value) (f : RenderFn)
    (h : mapGet self.components name = some f) (hc : container.supplied = false) :
    self.render P name container props =
      ⟨self, (f (defaultProps props) self.state).map some⟩ := by
  unfold MicroJS.render
  simp only [h]
  cases hf : f (defaultProps props) self.state with
  | error e => rfl
  | ok el =>
    cases container with
    | absent => rfl
    | selector s =>
      have hs : s = "" := by simpa [Container.supplied] using hc
      simp [hs, Except.map]
    | node ref => simp [Container.supplied] at hc

theorem render_into (P : Platform) (self : MicroJS) (name : String) (container : Container)
    (props : Value) (f : RenderFn) (el : Node) (ref : NodeRef) (t : String)
    (a : List (String × String)) (l : List (String × FnRef)) (cs : List Node)
    (h : mapGet self.components name = some f)
    (hf : f (defaultProps props) self.state = .ok el)
    (hc : self.containerElement P container = some (ref, .element t a l cs)) :
    self.render P name container props =
      ⟨self.putAt ref (.element t a l [el]), .ok (some el)⟩ := by
  unfold MicroJS.render
  simp only [h, hf]
  cases container with
  | absent => simp [MicroJS.containerElement] at hc
  | selector s =>
    by_cases hs : s = ""
    · simp [MicroJS.containerElement, hs] at hc
    · simp only [MicroJS.containerElement, hs, if_false] at hc ⊢
      rcases hq : P.querySelector s self.document with e | (_ | p)
      · simp [hq] at hc
      · simp [hq] at hc
      · simp only [hq] at hc ⊢
        cases hg : self.document.get p with
        | none => simp [hg] at hc
        | some c =>
          cases c with
          | text d => simp [hg] at hc
          | element t2 a2 l2 cs2 =>
            simp only [hg, Option.some.injEq, Prod.mk.injEq, Node.element.injEq] at hc
            obtain ⟨hr, ht, ha, hl, hcs⟩ := hc
            subst hr ht ha hl hcs
            simp [MicroJS.mount, MicroJS.nodeAt, hg, mountInto]
  | node r =>
    simp only [MicroJS.containerElement] at hc
    cases hg : self.nodeAt r with
    | none => simp [hg] at hc
    | some c =>
      cases c with
      | text d => simp [hg] at hc
      | element t2 a2 l2 cs2 =>
        simp only [hg, Option.some.injEq, Prod.mk.injEq, Node.element.injEq] at hc
        obtain ⟨hr, ht, ha, hl, hcs⟩ := hc
        subst hr ht ha hl hcs
        simp [MicroJS.mount, hg, mountInto]

theorem containerElement_nodeAt (P : Platform) (self : MicroJS) (container : Container)
    (ref : NodeRef) (c : Node) (hc : self.containerElement P container = some (ref, c)) :
    self.nodeAt ref = some c := by
  cases container with
  | absent => simp [MicroJS.containerElement] at hc
  | selector s =>
    by_cases hs : s = ""
    · simp [MicroJS.containerElement, hs] at hc
    · simp only [MicroJS.containerElement, hs, if_false] at hc
      rcases hq : P.querySelector s self.document with e | (_ | p)
      · simp [hq] at hc
      · simp [hq] at hc
      · simp only [hq] at hc
        cases hg : self.document.get p with
        | none => simp [hg] at hc
        | some c2 =>
          cases c2 with
          | text d => simp [hg] at hc
          | element t2 a2 l2 cs2 =>
            simp only [hg, Option.some.injEq, Prod.mk.injEq] at hc
            obtain ⟨hr, hn⟩ := hc
            subst hr hn
            exact hg
  | node r =>
    simp only [MicroJS.containerElement] at hc
    cases hg : self.nodeAt r with
    | none => simp [hg] at hc
    | some c2 =>
      cases c2 with
      | text d => simp [hg] at hc
      | element t2 a2 l2 cs2 =>
        simp only [hg, Option.some.injEq, Prod.mk.injEq] at hc
        obtain ⟨hr, hn⟩ := hc
        subst hr hn
        exact hg

theorem render_error (P : Platform) (self : MicroJS) (name : String) (container : Container)
    (props : Value) (f : RenderFn) (e : Exn) (h : mapGet self.components name = some f)
    (hf : f (defaultProps props) self.state = .error e) :
    self.render P name container props = ⟨self, .error e⟩ := by
  simp [MicroJS.render, h, hf]

theorem containerElement_isElement (P : Platform) (self : MicroJS) (container : Container)
    (ref : NodeRef) (c : Node) (hc : self.containerElement P container = some (ref, c)) :
    ∃ t a l cs, c = .element t a l cs := by
  have hn := containerElement_nodeAt P self container ref c hc
  cases c with
  | element t a l cs => exact ⟨t, a, l, cs, rfl⟩
  | text d =>
    exfalso
    cases container with
    | absent => simp [MicroJS.containerElement] at hc
    | selector s =>
      by_cases hs : s = ""
      · simp [MicroJS.containerElement, hs] at hc
      · simp only [MicroJS.containerElement, hs, if_false] at hc
        rcases hq : P.querySelector s self.document with e | (_ | p)
        · simp [hq] at hc
        · simp [hq] at hc
        · simp only [hq] at hc
          cases hg : self.document.get p with
          | none => simp [hg] at hc
          | some c2 => cases c2 <;> simp [hg] at hc
    | node r =>
      simp only [MicroJS.containerElement] at hc
      cases hg : self.nodeAt r with
      | none => simp [hg] at hc
      | some c2 => cases c2 <;> simp [hg] at hc

theorem render_result (P : Platform) (self : MicroJS) (name : String) (container : Container)
    (props : Value) (f : RenderFn) (h : mapGet self.components name = some f)
    (hc : container.supplied = false ∨ (self.containerElement P container).isSome) :
    (self.render P name container props).result =
      (f (defaultProps props) self.state).map some := by
  rcases hc with hc | hc
  · rw [render_unsupplied P self name container props f h hc]
  · cases hf : f (defaultProps props) self.state with
    | error e => rw [render_error P self name container props f e h hf]; rfl
    | ok el =>
      obtain ⟨⟨ref, c⟩, hce⟩ := Option.isSome_iff_exists.mp hc
      obtain ⟨t, a, l, cs, rfl⟩ := containerElement_isElement P self container ref c hce
      rw [render_into P self name container props f el ref t a l cs h hf hce]
      rfl

/-- C3 (amended). After any sequence of registrations in which `component(name, f)` is the
last one for `name` (last registration wins), and for every props, state and every
container that is absent (or the empty string) or designates an element, `render(name,
container, props)` returns `f(props, state)` (an exception of `f` escapes unchanged), where
`props` is the empty object when the argument is `undefined`.  When no function is
registered under a name, `render` returns `null` without any exception and without any
effect, whatever the container and the props are. -/
theorem render_returns (P : Platform) (self0 : MicroJS)
    (before after : List (String × RenderFn)) (name : String) (f : RenderFn)
    (container : Container) (props : Value)
    (hafter : ∀ r ∈ after, r.1 ≠ name)
    (hc : container.supplied = false ∨
      ((self0.registerAll (before ++ (name, f) :: after)).containerElement P container).isSome) :
    ((self0.registerAll (before ++ (name, f) :: after)).render P name container props).result =
        (f (defaultProps props) (self0.registerAll (before ++ (name, f) :: after)).state).map
          some ∧
    (∀ (self : MicroJS) (other : String) (c : Container) (q : Value),
        mapGet self.components other = none → self.render P other c q = ⟨self, .ok none⟩) :=
  ⟨render_result P _ name container props f (registerAll_last self0 before after name f hafter) hc,
   fun self other c q h => render_unknown P self other c q h⟩

/-- Witness for C3: `greeting` is registered twice, then rendered into `#app`; the second
function is the one that is called. -/
theorem render_returns_witness :
    (∀ r ∈ ([] : List (String × RenderFn)), r.1 ≠ "greeting") ∧
    ((Container.selector "#app").supplied = false ∨
      (((MicroJS.new samplePage [] []).registerAll
        ([("greeting", hello)] ++ ("greeting", bye) :: [])).containerElement sampleHost
          (.selector "#app")).isSome) ∧
    (((MicroJS.new samplePage [] []).registerAll
        ([("greeting", hello)] ++ ("greeting", bye) :: [])).render sampleHost "greeting"
          (.selector "#app") (.obj [])).result = .ok (some (.element "p" [] [] [.text "bye"])) :=
  ⟨by simp, Or.inr (by decide),
   (render_returns sampleHost (MicroJS.new samplePage [] []) [("greeting", hello)] []
      "greeting" bye (.selector "#app") (.obj []) (by simp) (Or.inr (by decide))).1⟩

/-- C3 as stated fails for a container that does not resolve: with `greeting` registered
and no element matching `#missing`, `render("greeting", "#missing", {})` throws a
`TypeError` instead of returning what the render function returned. -/
theorem render_missing_container_counterexample :
    mapGet ((MicroJS.new samplePage [] []).component "greeting" hello).components "greeting"
        = some hello ∧
    hello (.obj []) ((MicroJS.new samplePage [] []).component "greeting" hello).state
        = .ok (.element "p" [] [] [.text "hello"]) ∧
    (((MicroJS.new samplePage [] []).component "greeting" hello).render sampleHost "greeting"
        (.selector "#missing") (.obj [])).result = .error .typeError :=
  ⟨rfl, rfl, rfl⟩

/-- C4. For a registered name whose render function returns a node `el`, and a supplied
container that designates an element (a node handle, or a non-empty selector the host
resolves to an element): `render` returns `el`, and afterwards the container is the same
element with `el` as its only child, whatever its children were; nothing else of the page
or the instance changes.  When the name is unknown, or the container is not supplied, the
instance and the page are left exactly as they were. -/
theorem render_container_effect (P : Platform) (self : MicroJS) (name : String)
    (container : Container) (props : Value) (f : RenderFn) (el : Node) (ref : NodeRef)
    (t : String) (a : List (String × String)) (l : List (String × FnRef)) (cs : List Node)
    (h : mapGet self.components name = some f)
    (hf : f (defaultProps props) self.state = .ok el)
    (hc : self.containerElement P container = some (ref, .element t a l cs)) :
    (self.render P name container props).result = .ok (some el) ∧
    ((self.render P name container props).state.nodeAt ref).map Node.children = some [el] ∧
    (self.render P name container props).state = self.putAt ref (.element t a l [el]) ∧
    (∀ (other : String) (c : Container) (q : Value), mapGet self.components other = none →
        (self.render P other c q).state = self) ∧
    (∀ (n : String) (c : Container) (q : Value), c.supplied = false →
        (self.render P n c q).state = self) := by
  have hr := render_into P self name container props f el ref t a l cs h hf hc
  have hn := containerElement_nodeAt P self container ref _ hc
  refine ⟨by rw [hr], ?_, by rw [hr], ?_, ?_⟩
  · rw [hr]
    simp only
    rw [nodeAt_putAt self ref _ (by rw [hn]; rfl)]
    rfl
  · intro other c q ho
    rw [render_unknown P self other c q ho]
  · intro n c q hs
    cases hg : mapGet self.components n with
    | none => rw [render_unknown P self n c q hg]
    | some g => rw [render_unsupplied P self n c q g hg hs]

/-- Witness for C4: `greeting` rendered into the element `#app`, which held the text
`old`. -/
theorem render_container_effect_witness :
    mapGet ((MicroJS.new samplePage [] []).component "greeting" hello).components "greeting"
        = some hello ∧
    hello (defaultProps (.obj [])) ((MicroJS.new samplePage [] []).component "greeting" hello).state
        = .ok (.element "p" [] [] [.text "hello"]) ∧
    ((MicroJS.new samplePage [] []).component "greeting" hello).containerElement sampleHost
        (.selector "#app") =
      some (.inDocument [0, 0], .element "div" [("id", "app")] [] [.text "old"]) ∧
    ((((MicroJS.new samplePage [] []).component "greeting" hello).render sampleHost "greeting"
        (.selector "#app") (.obj [])).state.nodeAt (.inDocument [0, 0])).map Node.children
      = some [.element "p" [] [] [.text "hello"]] :=
  ⟨rfl, rfl, rfl,
   (render_container_effect sampleHost ((MicroJS.new samplePage [] []).component "greeting" hello)
      "greeting" (.selector "#app") (.obj []) hello (.element "p" [] [] [.text "hello"])
      (.inDocument [0, 0]) "div" [("id", "app")] [] [.text "old"] rfl rfl rfl).2.1⟩

/-! ## The element builder -/

theorem mount_sameInstance (self : MicroJS) (ref : NodeRef) (element : Node) :
    self.sameInstance (self.mount ref element).state := by
  unfold MicroJS.mount
  split
  · exact ⟨rfl, rfl, rfl, rfl, rfl⟩
  · split
    · exact ⟨rfl, rfl, rfl, rfl, rfl⟩
    · cases ref <;> exact ⟨rfl, rfl, rfl, rfl, rfl⟩

theorem render_sameInstance (P : Platform) (self : MicroJS) (name : String)
    (container : Container) (props : Value) :
    self.sameInstance (self.render P name container props).state := by
  unfold MicroJS.render
  split
  · exact ⟨rfl, rfl, rfl, rfl, rfl⟩
  · split
    · exact ⟨rfl, rfl, rfl, rfl, rfl⟩
    · split
      · exact ⟨rfl, rfl, rfl, rfl, rfl⟩
      · split
        · exact ⟨rfl, rfl, rfl, rfl, rfl⟩
        · split
          · exact ⟨rfl, rfl, rfl, rfl, rfl⟩
          · exact ⟨rfl, rfl, rfl, rfl, rfl⟩
          · exact mount_sameInstance _ _ _
      · exact mount_sameInstance _ _ _

theorem renderRoute_sameInstance (P : Platform) (self : MicroJS) :
    self.sameInstance (self._renderRoute P).state := by
  unfold MicroJS._renderRoute
  split
  · exact ⟨rfl, rfl, rfl, rfl, rfl⟩
  · split
    · exact ⟨rfl, rfl, rfl, rfl, rfl⟩
    · exact render_sameInstance P _ _ _ _

theorem rerenderElement_of_renders (P : Platform) (f : RenderFn) (st : StateObj) (s : Pass)
    (m : Path × Node) (el : Node) (h : renderAt P f st m.2 = .ok el)
    (hel : m.1 = [] → el.isText = false) :
    rerenderElement P f st s m = ⟨pureStep P f st s m, .ok ()⟩ := by
  unfold rerenderElement pureStep replaceWith
  simp only [h]
  have hroot : ¬ (m.1 = [] ∧ el.isText = true) := by
    rintro ⟨h1, h2⟩
    rw [hel h1] at h2
    exact Bool.false_ne_true h2
  by_cases hd : (s.replaced.any fun q => q.isPrefixOf m.1) = true
  · simp [hd]
  · simp [hd, hroot]

theorem forEach_rerender_eq_foldl (P : Platform) (f : RenderFn) (st : StateObj)
    (ms : List (Path × Node)) :
    (∀ m ∈ ms, ∃ el, renderAt P f st m.2 = .ok el ∧ (m.1 = [] → el.isText = false)) →
    ∀ s : Pass, forEach (rerenderElement P f st) ms s = ⟨ms.foldl (pureStep P f st) s, .ok ()⟩ := by
  induction ms with
  | nil => intro _ s; rfl
  | cons m ms ih =>
    intro h s
    obtain ⟨el, h1, h2⟩ := h m (List.mem_cons_self _ _)
    simp only [forEach, rerenderElement_of_renders P f st s m el h1 h2, List.foldl_cons]
    exact ih (fun m2 hm2 => h m2 (List.mem_cons_of_mem _ hm2)) _

theorem pureStep_detached (P : Platform) (f : RenderFn) (st : StateObj) (s : Pass)
    (m : Path × Node) (h : [] ∈ s.replaced) : pureStep P f st s m = s := by
  unfold pureStep
  have hany : (s.replaced.any fun q => q.isPrefixOf m.1) = true := by
    rw [List.any_eq_true]
    exact ⟨[], h, by simp [List.isPrefixOf]⟩
  cases renderAt P f st m.2 with
  | error e => rfl
  | ok el => simp [hany]

theorem foldl_pureStep_detached (P : Platform) (f : RenderFn) (st : StateObj)
    (ms : List (Path × Node)) (s : Pass) (h : [] ∈ s.replaced) :
    ms.foldl (pureStep P f st) s = s := by
  induction ms with
  | nil => rfl
  | cons m ms ih => rw [List.foldl_cons, pureStep_detached P f st s m h, ih]

theorem modifyAt_modifyAt {α : Type} (f g : α → α) : ∀ (i : Nat) (l : List α),
    modifyAt g i (modifyAt f i l) = modifyAt (fun x => g (f x)) i l := by
  intro i l
  induction l generalizing i with
  | nil => cases i <;> rfl
  | cons x xs ih =>
    cases i with
    | zero => rfl
    | succ j => simp [modifyAt, ih]

theorem modifyAt_length_append {α : Type} (f : α → α) (done : List α) (c : α) (cs : List α) :
    modifyAt f done.length (done ++ c :: cs) = done ++ f c :: cs := by
  induction done with
  | nil => rfl
  | cons x xs ih => simp [modifyAt, ih]

theorem pureStep_lift (P : Platform) (f : RenderFn) (st : StateObj) (t : String)
    (a : List (String × String)) (l : List (String × FnRef)) (cs0 : List Node) (i : Nat)
    (others : List Path) (hothers : ∀ q ∈ others, ∃ j y, q = j :: y ∧ j ≠ i)
    (s : Pass) (m : Path × Node) :
    pureStep P f st (liftPass t a l cs0 i others s) (i :: m.1, m.2) =
      liftPass t a l cs0 i others (pureStep P f st s m) := by
  unfold pureStep
  cases renderAt P f st m.2 with
  | error e => rfl
  | ok el =>
    have hany : ((liftPass t a l cs0 i others s).replaced.any fun q => q.isPrefixOf (i :: m.1))
        = (s.replaced.any fun q => q.isPrefixOf m.1) := by
      simp only [liftPass, List.any_append, List.any_map]
      have h2 : (others.any fun q => q.isPrefixOf (i :: m.1)) = false := by
        rw [List.any_eq_false]
        intro q hq
        obtain ⟨j, y, rfl, hj⟩ := hothers q hq
        simp [List.isPrefixOf, hj]
      rw [h2, Bool.or_false]
      congr 1
      funext q
      simp [List.isPrefixOf]
    simp only [hany]
    by_cases hd : (s.replaced.any fun q => q.isPrefixOf m.1) = true
    · simp [hd]
    · simp only [hd]
      simp [liftPass, Node.replaceAt, modifyAt_modifyAt]

theorem foldl_pureStep_lift (P : Platform) (f : RenderFn) (st : StateObj) (t : String)
    (a : List (String × String)) (l : List (String × FnRef)) (cs0 : List Node) (i : Nat)
    (others : List Path) (hothers : ∀ q ∈ others, ∃ j y, q = j :: y ∧ j ≠ i)
    (ms : List (Path × Node)) :
    ∀ s : Pass, (ms.map fun h => (i :: h.1, h.2)).foldl (pureStep P f st)
        (liftPass t a l cs0 i others s) =
      liftPass t a l cs0 i others (ms.foldl (pureStep P f st) s) := by
  induction ms with
  | nil => intro s; rfl
  | cons m ms ih =>
    intro s
    rw [List.map_cons, List.foldl_cons, List.foldl_cons,
      pureStep_lift P f st t a l cs0 i others hothers s m, ih]

mutual
theorem foldl_pureStep_markers (P : Platform) (name : String) (f : RenderFn) (st : StateObj) :
    ∀ (n : Node), ∃ R, (Node.markers name n).foldl (pureStep P f st) ⟨n, []⟩ =
      ⟨Node.substituted P name f st n, R⟩
  | .text d => ⟨[], rfl⟩
  | .element t a l cs => by
    have hlist := foldl_pureStep_markersFrom P name f st t a l cs [] []
      (by intro q hq; simp at hq)
    simp only [List.length_nil, List.nil_append] at hlist
    by_cases hm : Node.isMarker name (.element t a l cs) = true
    · cases hr : renderAt P f st (.element t a l cs) with
      | error e =>
        obtain ⟨R, hR⟩ := hlist
        refine ⟨R, ?_⟩
        simp only [Node.markers, hm, if_true, List.singleton_append, List.foldl_cons,
          Node.substituted, hr]
        have h1 : pureStep P f st ⟨.element t a l cs, []⟩ ([], .element t a l cs)
            = ⟨.element t a l cs, []⟩ := by
          simp [pureStep, hr]
        rw [h1]
        exact hR
      | ok el =>
        refine ⟨[[]], ?_⟩
        simp only [Node.markers, hm, if_true, List.singleton_append, List.foldl_cons,
          Node.substituted, hr]
        have h1 : pureStep P f st ⟨.element t a l cs, []⟩ ([], .element t a l cs)
            = ⟨el, [[]]⟩ := by
          simp [pureStep, hr, Node.replaceAt]
        rw [h1]
        exact foldl_pureStep_detached P f st _ _ (by simp)
    · obtain ⟨R, hR⟩ := hlist
      refine ⟨R, ?_⟩
      simp only [Node.markers, hm, Node.substituted]
      simpa using hR
theorem foldl_pureStep_markersFrom (P : Platform) (name : String) (f : RenderFn)
    (st : StateObj) (t : String) (a : List (String × String)) (l : List (String × FnRef)) :
    ∀ (cs done : List Node) (R : List Path), (∀ q ∈ R, ∃ j y, q = j :: y ∧ j < done.length) →
      ∃ R2, (markersFrom name done.length cs).foldl (pureStep P f st)
          ⟨.element t a l (done ++ cs), R⟩ =
        ⟨.element t a l (done ++ substitutedList P name f st cs), R2⟩
  | [], done, R, _ => ⟨R, rfl⟩
  | c :: cs, done, R, hR => by
    obtain ⟨Rc, hc⟩ := foldl_pureStep_markers P name f st c
    have hothers : ∀ q ∈ R, ∃ j y, q = j :: y ∧ j ≠ done.length := by
      intro q hq
      obtain ⟨j, y, h1, h2⟩ := hR q hq
      exact ⟨j, y, h1, Nat.ne_of_lt h2⟩
    have hlift := foldl_pureStep_lift P f st t a l (done ++ c :: cs) done.length R hothers
      (Node.markers name c) ⟨c, []⟩
    rw [hc] at hlift
    have hstart : liftPass t a l (done ++ c :: cs) done.length R ⟨c, []⟩
        = ⟨.element t a l (done ++ c :: cs), R⟩ := by
      simp [liftPass, modifyAt_length_append]
    have hend : liftPass t a l (done ++ c :: cs) done.length R
          ⟨Node.substituted P name f st c, Rc⟩
        = ⟨.element t a l ((done ++ [Node.substituted P name f st c]) ++ cs),
            Rc.map (fun q => done.length :: q) ++ R⟩ := by
      simp [liftPass, modifyAt_length_append]
    rw [hstart, hend] at hlift
    have hR2 : ∀ q ∈ Rc.map (fun q => done.length :: q) ++ R,
        ∃ j y, q = j :: y ∧ j < (done ++ [Node.substituted P name f st c]).length := by
      intro q hq
      rw [List.mem_append, List.mem_map] at hq
      rcases hq with ⟨y, _, rfl⟩ | hq
      · exact ⟨done.length, y, rfl, by simp⟩
      · obtain ⟨j, y, h1, h2⟩ := hR q hq
        exact ⟨j, y, h1, by simp; omega⟩
    obtain ⟨R2, h2⟩ := foldl_pureStep_markersFrom P name f st t a l cs
      (done ++ [Node.substituted P name f st c]) _ hR2
    refine ⟨R2, ?_⟩
    simp only [markersFrom, List.foldl_append, hlift]
    have hlen : (done ++ [Node.substituted P name f st c]).length = done.length + 1 := by simp
    rw [hlen] at h2
    rw [h2]
    simp [substitutedList]
end

mutual
theorem markers_get (name : String) :
    ∀ (n : Node) (h : Path × Node), h ∈ Node.markers name n →
      n.get h.1 = some h.2 ∧ Node.isMarker name h.2 = true
  | .text _, h, hm => by simp [Node.markers] at hm
  | .element t a l cs, h, hm => by
    simp only [Node.markers, List.mem_append] at hm
    rcases hm with hm | hm
    · by_cases hmk : Node.isMarker name (.element t a l cs) = true
      · simp only [hmk, if_true, List.mem_singleton] at hm
        subst hm
        exact ⟨Node.get_nil _, hmk⟩
      · simp [hmk] at hm
    · obtain ⟨j, p, h1, h2, h3⟩ := markersFrom_get name cs 0 h hm
      refine ⟨?_, h3⟩
      rw [h1]
      simpa [Node.get] using h2
theorem markersFrom_get (name : String) :
    ∀ (cs : List Node) (i : Nat) (h : Path × Node), h ∈ markersFrom name i cs →
      ∃ j p, h.1 = (i + j) :: p ∧ (cs.get? j).bind (fun c => Node.get c p) = some h.2 ∧
        Node.isMarker name h.2 = true
  | [], _, h, hm => by simp [markersFrom] at hm
  | c :: cs, i, h, hm => by
    simp only [markersFrom, List.mem_append, List.mem_map] at hm
    rcases hm with ⟨h0, hm0, rfl⟩ | hm
    · obtain ⟨h1, h2⟩ := markers_get name c h0 hm0
      exact ⟨0, h0.1, rfl, by simpa using h1, h2⟩
    · obtain ⟨j, p, h1, h2, h3⟩ := markersFrom_get name cs (i + 1) h hm
      refine ⟨j + 1, p, ?_, by simpa using h2, h3⟩
      rw [h1]
      congr 1
      omega
end

theorem filterMap_get_markers (d : Node) (ms : List (Path × Node))
    (h : ∀ m ∈ ms, d.get m.1 = some m.2) :
    (ms.map Prod.fst).filterMap (fun p => (d.get p).map (fun n => (p, n))) = ms := by
  induction ms with
  | nil => rfl
  | cons m ms ih =>
    rw [List.map_cons, List.filterMap_cons, h m (List.mem_cons_self _ _)]
    simp only [Option.map_some']
    rw [ih (fun m2 hm2 => h m2 (List.mem_cons_of_mem _ hm2))]

theorem updateComponent_of_conforms (P : Platform) (self : MicroJS) (entry : String × RenderFn)
    (hconf : P.conforms entry.1) :
    self.updateComponent P entry =
      ⟨{ self with document :=
            (forEach (rerenderElement P entry.2 self.state) (Node.markers entry.1 self.document)
              ⟨self.document, []⟩).state.document },
       (forEach (rerenderElement P entry.2 self.state) (Node.markers entry.1 self.document)
          ⟨self.document, []⟩).result⟩ := by
  unfold MicroJS.updateComponent
  rw [hconf self.document]
  simp only
  rw [filterMap_get_markers self.document _ (fun m hm => (markers_get entry.1 _ m hm).1)]

theorem updateComponent_of_renders (P : Platform) (self : MicroJS) (entry : String × RenderFn)
    (hconf : P.conforms entry.1)
    (hren : rendersAll P entry.1 entry.2 self.state self.document) :
    self.updateComponent P entry =
      ⟨{ self with document := Node.substituted P entry.1 entry.2 self.state self.document },
        .ok ()⟩ := by
  rw [updateComponent_of_conforms P self entry hconf,
    forEach_rerender_eq_foldl P entry.2 self.state _ hren]
  obtain ⟨R, hR⟩ := foldl_pureStep_markers P entry.1 entry.2 self.state self.document
  simp only [hR]

theorem forEach_updateComponent_of_renders (P : Platform)
    (components : List (String × RenderFn)) :
    ∀ (self : MicroJS), passRenders P self.state components self.document →
      forEach (MicroJS.updateComponent P) components self =
        ⟨{ self with document := passDocument P self.state components self.document }, .ok ()⟩ := by
  induction components with
  | nil => intro self _; rfl
  | cons c cs ih =>
    intro self h
    obtain ⟨h1, h2, h3⟩ := h
    simp only [forEach, updateComponent_of_renders P self c h1 h2]
    exact ih { self with document := Node.substituted P c.1 c.2 self.state self.document } h3

/-- C2 (amended). `setState(key, value)` stores the value and performs exactly one pass over
the registry, the same whatever the key is.  The components are visited in registration
order; at the turn of a component, every element that is in the document at that moment
and carries `data-component` equal to its name has the render function called with the
props decoded from its `data-props` (the empty object when the attribute is absent or
empty) and the state that already holds the new value.  When nothing throws, each outermost
such element is replaced by the result, so the document after the call is `passDocument`;
an element marked for a component visited later that sits inside a replaced element leaves
the document with it and is not rendered, and elements marked with a name that is not
registered are left alone. -/
theorem setState_propagation (P : Platform) (self : MicroJS) (key : String) (value : Value)
    (st : StateObj) (hset : self.state.set P key value = .ok st)
    (hren : passRenders P st self.components self.document) :
    self.setState P key value =
      ⟨{ self with state := st, document := passDocument P st self.components self.document },
        .ok ()⟩ := by
  unfold MicroJS.setState MicroJS._updateComponents
  rw [hset]
  exact forEach_updateComponent_of_renders P self.components { self with state := st } hren

theorem attrSelectorName_componentSelector (name : String) :
    attrSelectorName (componentSelector name) = some name := by
  have hdata : (componentSelector name).data =
      "[data-component=\"".data ++ (name.data ++ "\"]".data) := by
    simp [componentSelector, String.data_append]
  unfold attrSelectorName
  simp only [hdata]
  have hpre : ("[data-component=\"".data).isPrefixOf
      ("[data-component=\"".data ++ (name.data ++ "\"]".data)) = true := by
    rw [List.isPrefixOf_iff_prefix]
    exact List.prefix_append _ _
  have hlen : ("[data-component=\"".data ++ (name.data ++ "\"]".data)).length ≥
      ("[data-component=\"".data).length + 2 := by
    simp only [List.length_append]
    have h2 : ("\"]".data).length = 2 := by decide
    rw [h2]
    omega
  simp only [hpre, hlen, and_self, if_true, List.drop_left]
  have h2 : ((name.data ++ "\"]".data).reverse.drop 2).reverse = name.data := by
    have : ("\"]".data).reverse.length = 2 := by decide
    rw [List.reverse_append, ← this, List.drop_left, List.reverse_reverse]
  rw [h2]

theorem sampleHost_conforms (name : String) : sampleHost.conforms name := by
  intro d
  simp [sampleHost, attrSelectorName_componentSelector]

/-- Witness for C2: the page holds `<p data-component="counter">0</p>`, the registered
render function marks its output itself, and `setState("count", "1")` replaces the element
by `<p data-component="counter">1</p>`. -/
theorem setState_propagation_witness :
    (((MicroJS.new counterPage [] []).component "counter" markedCounter).state.set sampleHost
        "count" (.str "1") = .ok { own := [("count", .str "1")], proto := .objectPrototype }) ∧
    passRenders sampleHost { own := [("count", .str "1")], proto := .objectPrototype }
        ((MicroJS.new counterPage [] []).component "counter" markedCounter).components
        ((MicroJS.new counterPage [] []).component "counter" markedCounter).document ∧
    (((MicroJS.new counterPage [] []).component "counter" markedCounter).setState sampleHost
        "count" (.str "1")).state.document =
      .element "html" [] []
        [.element "body" [] [] [.element "p" [("data-component", "counter")] [] [.text "1"]]] := by
  have hren : passRenders sampleHost { own := [("count", .str "1")], proto := .objectPrototype }
      ((MicroJS.new counterPage [] []).component "counter" markedCounter).components
      ((MicroJS.new counterPage [] []).component "counter" markedCounter).document := by
    refine ⟨sampleHost_conforms _, ?_, trivial⟩
    intro m hm
    change m ∈ [([0, 0], Node.element "p" [("data-component", "counter")] [] [.text "0"])] at hm
    rw [List.mem_singleton] at hm
    subst hm
    exact ⟨_, rfl, fun _ => rfl⟩
  refine ⟨rfl, hren, ?_⟩
  rw [setState_propagation sampleHost
    ((MicroJS.new counterPage [] []).component "counter" markedCounter) "count" (.str "1")
    { own := [("count", .str "1")], proto := .objectPrototype } rfl hren]
  rfl

/-- C2 as stated fails for nested markers.  The page holds an element marked `inner` inside
an element marked `outer`, and `outer` is registered first.  After `setState` the page holds
the rendering of `outer` only: the element marked `inner` was in the document when the
state was written, but it was neither rendered nor replaced by the output of its render
function.  With a render function for `inner` that always throws, `setState` still returns
normally, so that function is not called at all. -/
theorem setState_nested_marker_counterexample :
    Node.markers "inner" nestedPage =
      [([0, 0], .element "span" [("data-component", "inner")] [] [.text "old"])] ∧
    ((((MicroJS.new nestedPage [] []).component "outer" outerView).component "inner"
        innerView).setState sampleHost "count" (.str "1")).result = .ok () ∧
    ((((MicroJS.new nestedPage [] []).component "outer" outerView).component "inner"
        innerView).setState sampleHost "count" (.str "1")).state.document =
      .element "html" [] [] [.element "section" [("data-component", "outer")] [] [.text "A"]] ∧
    ((((MicroJS.new nestedPage [] []).component "outer" outerView).component "inner"
        failing).setState sampleHost "count" (.str "1")).result = .ok () :=
  ⟨rfl, rfl, rfl, rfl⟩

/-! ## Markers and paths -/

theorem get?_modifyAt_ne {α : Type} (f : α → α) : ∀ (i j : Nat) (l : List α), i ≠ j →
    (modifyAt f i l).get? j = l.get? j := by
  intro i j l
  induction l generalizing i j with
  | nil => intro _; cases i <;> rfl
  | cons x xs ih =>
    intro hij
    cases i with
    | zero =>
      cases j with
      | zero => exact absurd rfl hij
      | succ j => rfl
    | succ i =>
      cases j with
      | zero => rfl
      | succ j => simpa [modifyAt] using ih i j (fun h => hij (by rw [h]))

theorem Node.get_replaceAt_of_incomparable (n : Node) :
    ∀ (p q : Path) (d : Node), ¬ p <+: q → ¬ q <+: p → (d.replaceAt p n).get q = d.get q := by
  intro p
  induction p with
  | nil => intro q d h _; exact absurd (List.nil_prefix) h
  | cons i p ih =>
    intro q d h1 h2
    cases q with
    | nil => exact absurd (List.nil_prefix) h2
    | cons j q =>
      cases d with
      | text s => rfl
      | element t a l cs =>
        simp only [Node.replaceAt, Node.get]
        by_cases hij : i = j
        · subst hij
          rw [get?_modifyAt]
          cases cs.get? i with
          | none => rfl
          | some c =>
            simp only [Option.map_some', Option.some_bind]
            refine ih q c (fun h => h1 ?_) (fun h => h2 ?_)
            · exact (List.cons_prefix_cons).mpr ⟨rfl, h⟩
            · exact (List.cons_prefix_cons).mpr ⟨rfl, h⟩
        · rw [get?_modifyAt_ne _ i j cs hij]

mutual
theorem markers_pairwise (name : String) :
    ∀ (n : Node), List.Pairwise (fun a b : Path × Node => ¬ b.1 <+: a.1) (Node.markers name n)
  | .text _ => by simp [Node.markers]
  | .element t a l cs => by
    simp only [Node.markers]
    rw [List.pairwise_append]
    refine ⟨?_, markersFrom_pairwise name cs 0, ?_⟩
    · split
      · exact List.pairwise_singleton _ _
      · exact List.Pairwise.nil
    · intro x hx y hy
      split at hx
      · rw [List.mem_singleton] at hx
        subst hx
        obtain ⟨j, p, h1, _, _⟩ := markersFrom_get name cs 0 y hy
        rw [h1]
        simp
      · simp at hx
theorem markersFrom_pairwise (name : String) :
    ∀ (cs : List Node) (i : Nat),
      List.Pairwise (fun a b : Path × Node => ¬ b.1 <+: a.1) (markersFrom name i cs)
  | [], _ => by simp [markersFrom]
  | c :: cs, i => by
    simp only [markersFrom]
    rw [List.pairwise_append]
    refine ⟨?_, markersFrom_pairwise name cs (i + 1), ?_⟩
    · rw [List.pairwise_map]
      refine List.Pairwise.imp ?_ (markers_pairwise name c)
      intro x y hxy hp
      exact hxy ((List.cons_prefix_cons).mp hp).2
    · intro x hx y hy
      rw [List.mem_map] at hx
      obtain ⟨x0, _, rfl⟩ := hx
      obtain ⟨j, p, h1, _, _⟩ := markersFrom_get name cs (i + 1) y hy
      rw [h1]
      intro hp
      have := ((List.cons_prefix_cons).mp hp).1
      omega
end

/-! ## Propagation: a render function throws -/

theorem pureStep_cases (P : Platform) (f : RenderFn) (st : StateObj) (s : Pass)
    (m : Path × Node) :
    pureStep P f st s m = s ∨
      ∃ el, renderAt P f st m.2 = .ok el ∧ (∀ r ∈ s.replaced, ¬ r <+: m.1) ∧
        pureStep P f st s m = ⟨s.document.replaceAt m.1 el, m.1 :: s.replaced⟩ := by
  unfold pureStep
  cases hr : renderAt P f st m.2 with
  | error e => exact Or.inl rfl
  | ok el =>
    by_cases hd : (s.replaced.any fun q => q.isPrefixOf m.1) = true
    · left
      simp [hd]
    · right
      refine ⟨el, rfl, ?_, by simp [hd]⟩
      intro r hr2 hp
      apply hd
      rw [List.any_eq_true]
      exact ⟨r, hr2, List.isPrefixOf_iff_prefix.mpr hp⟩

theorem pureStep_of_attached (P : Platform) (f : RenderFn) (st : StateObj) (s : Pass)
    (m : Path × Node) (el : Node) (hel : renderAt P f st m.2 = .ok el)
    (hnot : ∀ r ∈ s.replaced, ¬ r <+: m.1) :
    pureStep P f st s m = ⟨s.document.replaceAt m.1 el, m.1 :: s.replaced⟩ := by
  unfold pureStep
  have hany : (s.replaced.any fun q => q.isPrefixOf m.1) = false := by
    rw [List.any_eq_false]
    intro r hr hp
    exact hnot r hr (List.isPrefixOf_iff_prefix.mp hp)
  simp [hel, hany]

theorem replaced_foldl_pureStep (P : Platform) (f : RenderFn) (st : StateObj)
    (ms : List (Path × Node)) :
    ∀ (s : Pass) (r : Path), r ∈ (ms.foldl (pureStep P f st) s).replaced →
      r ∈ s.replaced ∨ ∃ m ∈ ms, m.1 = r := by
  induction ms with
  | nil => intro s r h; exact Or.inl h
  | cons m ms ih =>
    intro s r h
    rw [List.foldl_cons] at h
    rcases ih _ r h with h1 | ⟨m2, hm2, h2⟩
    · rcases pureStep_cases P f st s m with hs | ⟨el, _, _, hs⟩
      · rw [hs] at h1
        exact Or.inl h1
      · rw [hs] at h1
        simp only [List.mem_cons] at h1
        rcases h1 with h1 | h1
        · exact Or.inr ⟨m, List.mem_cons_self _ _, h1.symm⟩
        · exact Or.inl h1
    · exact Or.inr ⟨m2, List.mem_cons_of_mem _ hm2, h2⟩

theorem get_foldl_pureStep_of_incomparable (P : Platform) (f : RenderFn) (st : StateObj)
    (q : Path) (ms : List (Path × Node)) :
    (∀ m ∈ ms, ¬ m.1 <+: q ∧ ¬ q <+: m.1) →
    ∀ s : Pass, (ms.foldl (pureStep P f st) s).document.get q = s.document.get q := by
  induction ms with
  | nil => intro _ s; rfl
  | cons m ms ih =>
    intro h s
    rw [List.foldl_cons, ih (fun m2 hm2 => h m2 (List.mem_cons_of_mem _ hm2))]
    rcases pureStep_cases P f st s m with hs | ⟨el, _, _, hs⟩
    · rw [hs]
    · rw [hs]
      obtain ⟨h1, h2⟩ := h m (List.mem_cons_self _ _)
      exact Node.get_replaceAt_of_incomparable el m.1 q s.document h1 h2

theorem get_foldl_pureStep_of_replaced (P : Platform) (f : RenderFn) (st : StateObj)
    (q : Path) (ms : List (Path × Node)) :
    (∀ m ∈ ms, ¬ m.1 <+: q) →
    ∀ s : Pass, q ∈ s.replaced →
      (ms.foldl (pureStep P f st) s).document.get q = s.document.get q := by
  induction ms with
  | nil => intro _ s _; rfl
  | cons m ms ih =>
    intro h s hq
    rw [List.foldl_cons]
    rcases pureStep_cases P f st s m with hs | ⟨el, _, hnot, hs⟩
    · rw [hs]
      exact ih (fun m2 hm2 => h m2 (List.mem_cons_of_mem _ hm2)) s hq
    · rw [hs, ih (fun m2 hm2 => h m2 (List.mem_cons_of_mem _ hm2)) _
        (List.mem_cons_of_mem _ hq)]
      exact Node.get_replaceAt_of_incomparable el m.1 q s.document
        (h m (List.mem_cons_self _ _)) (hnot q hq)

theorem rerenderElement_of_throws (P : Platform) (f : RenderFn) (st : StateObj) (s : Pass)
    (m : Path × Node) (e : Exn) (h : renderAt P f st m.2 = .error e) :
    rerenderElement P f st s m = ⟨s, .error e⟩ := by
  simp [rerenderElement, h]

theorem updateComponent_of_throws (P : Platform) (self : MicroJS) (name : String)
    (f : RenderFn) (ms1 ms2 : List (Path × Node)) (m : Path × Node) (e : Exn)
    (hconf : P.conforms name)
    (hmarkers : Node.markers name self.document = ms1 ++ m :: ms2)
    (hms1 : ∀ m1 ∈ ms1,
      ∃ el, renderAt P f self.state m1.2 = .ok el ∧ (m1.1 = [] → el.isText = false))
    (hthrow : renderAt P f self.state m.2 = .error e) :
    self.updateComponent P (name, f) =
      ⟨{ self with document :=
            (ms1.foldl (pureStep P f self.state) ⟨self.document, []⟩).document },
        .error e⟩ := by
  rw [updateComponent_of_conforms P self (name, f) hconf]
  simp only [hmarkers, forEach_append, forEach_rerender_eq_foldl P f self.state ms1 hms1, forEach,
    rerenderElement_of_throws P f self.state _ m e hthrow]

theorem setState_of_throws (P : Platform) (self : MicroJS) (key : String) (value : Value)
    (st : StateObj) (before after : List (String × RenderFn)) (name : String) (f : RenderFn)
    (ms1 ms2 : List (Path × Node)) (m : Path × Node) (e : Exn)
    (hset : self.state.set P key value = .ok st)
    (hcomps : self.components = before ++ (name, f) :: after)
    (hbefore : passRenders P st before self.document)
    (hconf : P.conforms name)
    (hmarkers : Node.markers name (passDocument P st before self.document) = ms1 ++ m :: ms2)
    (hms1 : ∀ m1 ∈ ms1,
      ∃ el, renderAt P f st m1.2 = .ok el ∧ (m1.1 = [] → el.isText = false))
    (hthrow : renderAt P f st m.2 = .error e) :
    self.setState P key value =
      ⟨{ self with
          state := st
          document := (ms1.foldl (pureStep P f st)
            ⟨passDocument P st before self.document, []⟩).document },
        .error e⟩ := by
  have key2 : ∀ (s : MicroJS), s.components = before ++ (name, f) :: after →
      passRenders P s.state before s.document →
      Node.markers name (passDocument P s.state before s.document) = ms1 ++ m :: ms2 →
      (∀ m1 ∈ ms1,
        ∃ el, renderAt P f s.state m1.2 = .ok el ∧ (m1.1 = [] → el.isText = false)) →
      renderAt P f s.state m.2 = .error e →
      forEach (MicroJS.updateComponent P) s.components s =
        ⟨{ s with document := (ms1.foldl (pureStep P f s.state)
            ⟨passDocument P s.state before s.document, []⟩).document }, .error e⟩ := by
    intro s hc hb hmk h1 ht
    conv_lhs => rw [hc, forEach_append, forEach_updateComponent_of_renders P before s hb]
    simp only [forEach]
    rw [updateComponent_of_throws P
      { s with document := passDocument P s.state before s.document } name f ms1 ms2 m e hconf
      hmk h1 ht]
  unfold MicroJS.setState MicroJS._updateComponents
  rw [hset]
  exact key2 { self with state := st } hcomps hbefore hmarkers hms1 hthrow

theorem get_of_processed (P : Platform) (f : RenderFn) (st : StateObj) (d : Node)
    (name : String) (ms1 rest : List (Path × Node))
    (hmarkers : Node.markers name d = ms1 ++ rest)
    (m1 : Path × Node) (hm1 : m1 ∈ ms1)
    (houter : ∀ m0 ∈ ms1, m0.1 <+: m1.1 → m0 = m1)
    (el : Node) (hel : renderAt P f st m1.2 = .ok el) :
    (ms1.foldl (pureStep P f st) ⟨d, []⟩).document.get m1.1 = some el := by
  have hpw := markers_pairwise name d
  rw [hmarkers, List.pairwise_append] at hpw
  obtain ⟨hpw1, -, -⟩ := hpw
  obtain ⟨A, B, hAB⟩ := List.append_of_mem hm1
  rw [hAB, List.pairwise_append, List.pairwise_cons] at hpw1
  obtain ⟨-, ⟨hmB, -⟩, hAm⟩ := hpw1
  have hAmem : ∀ a ∈ A, a ∈ ms1 := fun a ha => by rw [hAB]; exact List.mem_append_left _ ha
  have hAinc : ∀ a ∈ A, ¬ a.1 <+: m1.1 ∧ ¬ m1.1 <+: a.1 := by
    intro a ha
    have h2 : ¬ m1.1 <+: a.1 := hAm a ha m1 (List.mem_cons_self _ _)
    refine ⟨fun hp => ?_, h2⟩
    have := houter a (hAmem a ha) hp
    subst this
    exact h2 (List.prefix_refl _)
  have hget0 : d.get m1.1 = some m1.2 :=
    (markers_get name d m1 (by rw [hmarkers]; exact List.mem_append_left _ hm1)).1
  have hgetA : (A.foldl (pureStep P f st) ⟨d, []⟩).document.get m1.1 = some m1.2 := by
    rw [get_foldl_pureStep_of_incomparable P f st m1.1 A hAinc]
    exact hget0
  have hnot : ∀ r ∈ (A.foldl (pureStep P f st) ⟨d, []⟩).replaced, ¬ r <+: m1.1 := by
    intro r hr
    rcases replaced_foldl_pureStep P f st A _ r hr with h | ⟨a, ha, rfl⟩
    · simp at h
    · exact (hAinc a ha).1
  have hstep : pureStep P f st (A.foldl (pureStep P f st) ⟨d, []⟩) m1 =
      ⟨(A.foldl (pureStep P f st) ⟨d, []⟩).document.replaceAt m1.1 el,
        m1.1 :: (A.foldl (pureStep P f st) ⟨d, []⟩).replaced⟩ :=
    pureStep_of_attached P f st _ m1 el hel hnot
  rw [hAB, List.foldl_append, List.foldl_cons, hstep,
    get_foldl_pureStep_of_replaced P f st m1.1 B (fun b hb => hmB b hb) _
      (List.mem_cons_self _ _)]
  exact Node.get_replaceAt el m1.1 _ (by rw [hgetA]; rfl)

theorem get_of_unprocessed (P : Platform) (f : RenderFn) (st : StateObj) (d : Node)
    (name : String) (ms1 rest : List (Path × Node))
    (hmarkers : Node.markers name d = ms1 ++ rest)
    (m2 : Path × Node) (hm2 : m2 ∈ rest) (hout : ∀ m0 ∈ ms1, ¬ m0.1 <+: m2.1) :
    (ms1.foldl (pureStep P f st) ⟨d, []⟩).document.get m2.1 = some m2.2 := by
  have hpw := markers_pairwise name d
  rw [hmarkers, List.pairwise_append] at hpw
  obtain ⟨-, -, hcross⟩ := hpw
  rw [get_foldl_pureStep_of_incomparable P f st m2.1 ms1
    (fun m0 hm0 => ⟨hout m0 hm0, hcross m0 hm0 m2 hm2⟩)]
  exact (markers_get name d m2 (by rw [hmarkers]; exact List.mem_append_right _ hm2)).1

/-- C10. Suppose that during the propagation started by `setState(key, value)` the first
exception is thrown by the render function of the component `name` for one of the elements
marked for it: the components registered before `name` have completed their turn, the
elements marked for `name` that come earlier in document order have been rendered, and the
render function throws `e` for the props decoded from the next one.  Then `setState` raises
exactly `e`; the store holds the written value (the write is not rolled back); the document
is the one reached by the work done before the throw and nothing else: every earlier
element marked for `name` that does not lie inside another one is replaced by its
rendering, and the failing element and every later one, unless it lies inside a replaced
one, is still in the document as it was. -/
theorem setState_render_failure (P : Platform) (self : MicroJS) (key : String) (value : Value)
    (st : StateObj) (before after : List (String × RenderFn)) (name : String) (f : RenderFn)
    (ms1 ms2 : List (Path × Node)) (m : Path × Node) (props : Value) (e : Exn)
    (hset : self.state.set P key value = .ok st)
    (hcomps : self.components = before ++ (name, f) :: after)
    (hbefore : passRenders P st before self.document)
    (hconf : P.conforms name)
    (hmarkers : Node.markers name (passDocument P st before self.document) = ms1 ++ m :: ms2)
    (hms1 : ∀ m1 ∈ ms1,
      ∃ el, renderAt P f st m1.2 = .ok el ∧ (m1.1 = [] → el.isText = false))
    (hparse : P.jsonParse (propsBlob m.2) = .ok props)
    (hthrow : f props st = .error e) :
    (self.setState P key value).result = .error e ∧
    (self.setState P key value).state.state = st ∧
    (key ≠ "__proto__" → self.state.proto = .objectPrototype →
      (self.setState P key value).state.getState P key = value) ∧
    (self.setState P key value).state.document =
      (ms1.foldl (pureStep P f st) ⟨passDocument P st before self.document, []⟩).document ∧
    (∀ m1 ∈ ms1, (∀ m0 ∈ ms1, m0.1 <+: m1.1 → m0 = m1) →
      ∃ el, renderAt P f st m1.2 = .ok el ∧
        (self.setState P key value).state.document.get m1.1 = some el) ∧
    (∀ m2 ∈ m :: ms2, (∀ m0 ∈ ms1, ¬ m0.1 <+: m2.1) →
      (self.setState P key value).state.document.get m2.1 = some m2.2) := by
  have hrender : renderAt P f st m.2 = .error e := by simp [renderAt, hparse, hthrow]
  have hall := setState_of_throws P self key value st before after name f ms1 ms2 m e hset
    hcomps hbefore hconf hmarkers hms1 hrender
  rw [hall]
  refine ⟨rfl, rfl, ?_, rfl, ?_, ?_⟩
  · intro hk hp
    have h2 := set_eq_of_objectPrototype P self.state key value hp hk
    rw [hset] at h2
    simp only [Except.ok.injEq] at h2
    subst h2
    exact get_of_own P _ key value (mapGet_mapSet_self _ _ _)
  · intro m1 hm1 houter
    obtain ⟨el, hel, -⟩ := hms1 m1 hm1
    exact ⟨el, hel, get_of_processed P f st _ name ms1 (m :: ms2) hmarkers m1 hm1 houter el hel⟩
  · intro m2 hm2 hout
    exact get_of_unprocessed P f st _ name ms1 (m :: ms2) hmarkers m2 hm2 hout

/-- Witness for C10: three list items marked for `item`; the render function throws for the
second.  `setState` raises that exception, the first item is replaced, the second and the
third are as they were, and the store holds the new value. -/
theorem setState_render_failure_witness :
    (((MicroJS.new listPage [] []).component "item" picky).state.set sampleHost "count"
        (.str "1") = .ok { own := [("count", .str "1")], proto := .objectPrototype }) ∧
    (((MicroJS.new listPage [] []).component "item" picky).setState sampleHost "count"
        (.str "1")).result = .error (.thrown "bad props") ∧
    (((MicroJS.new listPage [] []).component "item" picky).setState sampleHost "count"
        (.str "1")).state.getState sampleHost "count" = .str "1" ∧
    (((MicroJS.new listPage [] []).component "item" picky).setState sampleHost "count"
        (.str "1")).state.document =
      .element "html" [] []
        [.element "ul" [] []
          [.element "li" [("data-component", "item")] [] [.text "new"],
           .element "li" [("data-component", "item"), ("data-props", "\x7b\"bad\":true\x7d")] []
             [.text "b"],
           .element "li" [("data-component", "item")] [] [.text "c"]]] := by
  have h := setState_render_failure sampleHost ((MicroJS.new listPage [] []).component "item" picky)
    "count" (.str "1") { own := [("count", .str "1")], proto := .objectPrototype } [] []
    "item" picky [([0, 0], .element "li" [("data-component", "item")] [] [.text "a"])]
    [([0, 2], .element "li" [("data-component", "item")] [] [.text "c"])]
    ([0, 1], .element "li" [("data-component", "item"), ("data-props", "\x7b\"bad\":true\x7d")] []
      [.text "b"])
    (.obj [("bad", .bool true)]) (.thrown "bad props") rfl rfl trivial (sampleHost_conforms _) rfl
    (by
      intro m1 hm1
      rw [List.mem_singleton] at hm1
      subst hm1
      exact ⟨_, rfl, fun _ => rfl⟩)
    rfl rfl
  exact ⟨rfl, h.1, h.2.2.1 (by decide) rfl, h.2.2.2.1.trans rfl⟩

/-! ## What `render` mounts -/

end MiniFramework
